import Mathlib

/-!
Verification of the geometry pipeline of the `aminui_maker` repository.

The development shallowly embeds the two geometric source modules:

* `PointCalculator` (point-placement from circumference values), and
* `Shape3DRenderer` (envelope construction, surface of revolution,
  centroid, perspective projection and painter's-algorithm rendering).

JavaScript numbers are modelled as real numbers (`ℝ`); the claims under
scrutiny are stated by the specification over real arithmetic.  Mutable
object state (`this.baseRadius`, `this.points3D`, ...) is passed
explicitly.  `console.warn` diagnostics are modelled as a `Bool` flag in
the result of the function that emits them.
-/

open Real

set_option maxHeartbeats 1000000

/-- A 2D point `{x, y}` as used by the profile and the envelope. -/
structure Point2 where
  x : ℝ
  y : ℝ

/-- A profile point `{x, y, index}` produced by `PointCalculator.calculate`. -/
structure ProfilePoint where
  x : ℝ
  y : ℝ
  index : ℕ

/-- Forget the `index` field of a profile point. -/
def toPoint2 (p : ProfilePoint) : Point2 :=
  ⟨p.x, p.y⟩

/-! ## PointCalculator (src/unnamed/part_000) -/

/-- Source `circumferenceToRadius(circumference)`: `circumference / (2 * Math.PI)`. -/
noncomputable def circumferenceToRadius (circumference : ℝ) : ℝ :=
  circumference / (2 * Real.pi)

/-- Source `calculateNextPoint(prevPoint, targetY)` of `PointCalculator`.
`this.baseRadius` is passed explicitly.  The second component of the
result records whether the `console.warn` diagnostic in the
`discriminant < 0` branch fired. -/
noncomputable def calculateNextPoint (baseRadius : ℝ) (prevPoint : Point2)
    (targetY : ℝ) : Point2 × Bool :=
  let distance := baseRadius * 1.3
  let dy := targetY - prevPoint.y
  let discriminant := distance * distance - dy * dy
  if 0 ≤ discriminant then
    (⟨prevPoint.x + Real.sqrt discriminant, targetY⟩, false)
  else
    (⟨prevPoint.x, targetY⟩, true)

/-- The point-generation loop of `PointCalculator.calculate` for the
indices `i ≥ 1`: each new point is obtained from the previous one by
`calculateNextPoint`, and is tagged with the 1-based `index` taken from
`radiusArray`. -/
noncomputable def buildPoints (baseRadius : ℝ) :
    Point2 → ℕ → List ℝ → List ProfilePoint
  | _, _, [] => []
  | prev, idx, r :: rest =>
    let np := (calculateNextPoint baseRadius prev r).1
    ⟨np.x, np.y, idx⟩ :: buildPoints baseRadius np (idx + 1) rest

/-- Source `PointCalculator.calculate(tableData)`: convert every circumference to
a radius, set `baseRadius` to the first radius, and emit the first point
`(x=0, y=radius₀, index=1)` followed by the points of the placement loop. -/
noncomputable def calculate (tableData : List ℝ) : List ProfilePoint :=
  match tableData with
  | [] => []
  | c :: cs =>
    ⟨0, circumferenceToRadius c, 1⟩ ::
      buildPoints (circumferenceToRadius c) ⟨0, circumferenceToRadius c⟩ 2
        (cs.map circumferenceToRadius)

/-- Source `this.baseRadius` as set by `calculate`: the radius derived from the
first table entry. -/
noncomputable def baseRadiusOf (tableData : List ℝ) : ℝ :=
  circumferenceToRadius (tableData.headD 0)

/-- Successor relation between adjacent profile points: `q` is exactly the
point `calculateNextPoint` produces from `p` with target height `q.y`. -/
def placementStep (baseRadius : ℝ) (p q : ProfilePoint) : Prop :=
  toPoint2 q = (calculateNextPoint baseRadius (toPoint2 p) q.y).1

theorem calculateNextPoint_y (baseRadius : ℝ) (prev : Point2) (targetY : ℝ) :
    ((calculateNextPoint baseRadius prev targetY).1).y = targetY := by
  unfold calculateNextPoint
  dsimp only
  split <;> rfl

theorem chain_buildPoints (baseRadius : ℝ) (rs : List ℝ) :
    ∀ (prev : Point2) (idx : ℕ) (p : ProfilePoint),
      toPoint2 p = prev →
      List.Chain' (placementStep baseRadius)
        (p :: buildPoints baseRadius prev idx rs) := by
  induction rs with
  | nil =>
    intro prev idx p _
    simp [buildPoints]
  | cons r rest ih =>
    intro prev idx p hp
    simp only [buildPoints]
    rw [List.chain'_cons]
    refine ⟨?_, ?_⟩
    · unfold placementStep
      rw [hp]
      show (calculateNextPoint baseRadius prev r).1 =
        (calculateNextPoint baseRadius prev
          ((calculateNextPoint baseRadius prev r).1.y)).1
      rw [calculateNextPoint_y]
    · exact ih (calculateNextPoint baseRadius prev r).1 (idx + 1) _ rfl

theorem chain_calculate (tableData : List ℝ) :
    List.Chain' (placementStep (baseRadiusOf tableData)) (calculate tableData) := by
  cases tableData with
  | nil => simp [calculate]
  | cons c cs =>
    have h := chain_buildPoints (baseRadiusOf (c :: cs))
      (cs.map circumferenceToRadius) ⟨0, circumferenceToRadius c⟩ 2
      ⟨0, circumferenceToRadius c, 1⟩ rfl
    simpa [calculate, baseRadiusOf] using h

theorem placementStep_x_le (baseRadius : ℝ) (p q : ProfilePoint)
    (h : placementStep baseRadius p q) : p.x ≤ q.x := by
  unfold placementStep calculateNextPoint at h
  simp only [toPoint2] at h
  split at h
  · have hx := congrArg Point2.x h
    dsimp at hx
    rw [hx]
    exact le_add_of_nonneg_right (Real.sqrt_nonneg _)
  · have hx := congrArg Point2.x h
    dsimp at hx
    rw [hx]

theorem buildPoints_map_y (baseRadius : ℝ) (rs : List ℝ) :
    ∀ (prev : Point2) (idx : ℕ),
      (buildPoints baseRadius prev idx rs).map (fun p => p.y) = rs := by
  induction rs with
  | nil => intro prev idx; rfl
  | cons r rest ih =>
    intro prev idx
    simp only [buildPoints, List.map_cons]
    rw [calculateNextPoint_y, ih]

theorem calculate_map_y (tableData : List ℝ) :
    (calculate tableData).map (fun p => p.y) =
      tableData.map circumferenceToRadius := by
  cases tableData with
  | nil => rfl
  | cons c cs =>
    simp only [calculate, List.map_cons]
    rw [buildPoints_map_y]

theorem calculate_length (tableData : List ℝ) :
    (calculate tableData).length = tableData.length := by
  have h := congrArg List.length (calculate_map_y tableData)
  simpa using h

theorem placementStep_dist (baseRadius : ℝ) (p q : ProfilePoint)
    (hb : 0 ≤ baseRadius) (h : placementStep baseRadius p q)
    (hd : 0 ≤ (baseRadius * 1.3) ^ 2 - (q.y - p.y) ^ 2) :
    Real.sqrt ((q.x - p.x) ^ 2 + (q.y - p.y) ^ 2) = baseRadius * 1.3 := by
  unfold placementStep calculateNextPoint at h
  simp only [toPoint2] at h
  split at h
  · have hx := congrArg Point2.x h
    dsimp at hx
    have hd0 : 0 ≤ baseRadius * 1.3 * (baseRadius * 1.3) -
        (q.y - p.y) * (q.y - p.y) := by nlinarith [hd]
    have hxx : q.x - p.x = Real.sqrt (baseRadius * 1.3 * (baseRadius * 1.3) -
        (q.y - p.y) * (q.y - p.y)) := by rw [hx]; ring
    rw [hxx, Real.sq_sqrt hd0]
    have harg : baseRadius * 1.3 * (baseRadius * 1.3) - (q.y - p.y) * (q.y - p.y) +
        (q.y - p.y) ^ 2 = (baseRadius * 1.3) ^ 2 := by ring
    rw [harg]
    exact Real.sqrt_sq (by positivity)
  · exfalso
    rename_i hneg
    push_neg at hneg
    nlinarith [hd, hneg]

theorem calculate_pos_baseRadius (mags : List ℝ) (hpos : ∀ m ∈ mags, 0 < m)
    (hne : mags ≠ []) : 0 < baseRadiusOf mags := by
  cases mags with
  | nil => exact absurd rfl hne
  | cons c cs =>
    have hc : 0 < c := hpos c (List.mem_cons_self c cs)
    unfold baseRadiusOf circumferenceToRadius
    simp only [List.headD_cons]
    positivity

/-- Claim C2: For every magnitude sequence with all values positive and every
consecutive pair of profile points whose placement discriminant is
nonnegative, the Euclidean distance between the two points equals
`baseRadius * 1.3` exactly (over real arithmetic), where `baseRadius` is
the radius derived from the first magnitude. -/
theorem placement_distance_invariant (mags : List ℝ) (i : ℕ) (p q : ProfilePoint)
    (hpos : ∀ m ∈ mags, 0 < m)
    (hp : (calculate mags).get? i = some p)
    (hq : (calculate mags).get? (i + 1) = some q)
    (hd : 0 ≤ (baseRadiusOf mags * 1.3) ^ 2 - (q.y - p.y) ^ 2) :
    Real.sqrt ((q.x - p.x) ^ 2 + (q.y - p.y) ^ 2) = baseRadiusOf mags * 1.3 := by
  have hne : mags ≠ [] := by
    intro hnil
    rw [hnil] at hp
    simp [calculate] at hp
  obtain ⟨hq', hqget⟩ := List.get?_eq_some.mp hq
  obtain ⟨hp', hpget⟩ := List.get?_eq_some.mp hp
  have hchain := chain_calculate mags
  rw [List.chain'_iff_get] at hchain
  have hstep := hchain i (by omega)
  rw [hpget, hqget] at hstep
  exact placementStep_dist (baseRadiusOf mags) p q
    (le_of_lt (calculate_pos_baseRadius mags hpos hne)) hstep hd

theorem calculate_two_pi_pair :
    calculate [2 * Real.pi, 2 * Real.pi] =
      [⟨0, 1, 1⟩, ⟨1.3, 1, 2⟩] := by
  have h2pi : (2 : ℝ) * Real.pi ≠ 0 := by positivity
  have hr : circumferenceToRadius (2 * Real.pi) = 1 := by
    unfold circumferenceToRadius
    exact div_self h2pi
  unfold calculate
  simp only [List.map_cons, List.map_nil, hr]
  unfold buildPoints calculateNextPoint
  have hsq : Real.sqrt (1 * 1.3 * (1 * 1.3) - (1 - (1 : ℝ)) * (1 - 1)) = 1.3 := by
    rw [show (1 * 1.3 * (1 * 1.3) - (1 - (1 : ℝ)) * (1 - 1)) = 1.3 ^ 2 by norm_num]
    exact Real.sqrt_sq (by norm_num)
  norm_num at hsq ⊢
  exact ⟨hsq, by simp [buildPoints]⟩

/-- Witness for C2 at the concrete input `[2π, 2π]` (radii `1, 1`). -/
theorem placement_distance_invariant_witness :
    (calculate [2 * Real.pi, 2 * Real.pi]).get? 0 = some ⟨0, 1, 1⟩ ∧
    (calculate [2 * Real.pi, 2 * Real.pi]).get? 1 = some ⟨1.3, 1, 2⟩ ∧
    Real.sqrt (((1.3 : ℝ) - 0) ^ 2 + ((1 : ℝ) - 1) ^ 2) =
      baseRadiusOf [2 * Real.pi, 2 * Real.pi] * 1.3 := by
  have h0 : (calculate [2 * Real.pi, 2 * Real.pi]).get? 0 = some ⟨0, 1, 1⟩ := by
    rw [calculate_two_pi_pair]; rfl
  have h1 : (calculate [2 * Real.pi, 2 * Real.pi]).get? 1 = some ⟨1.3, 1, 2⟩ := by
    rw [calculate_two_pi_pair]; rfl
  refine ⟨h0, h1, ?_⟩
  have hb : (0 : ℝ) ≤ (baseRadiusOf [2 * Real.pi, 2 * Real.pi] * 1.3) ^ 2 -
      ((⟨1.3, 1, 2⟩ : ProfilePoint).y - (⟨0, 1, 1⟩ : ProfilePoint).y) ^ 2 := by
    have : baseRadiusOf [2 * Real.pi, 2 * Real.pi] = 1 := by
      unfold baseRadiusOf circumferenceToRadius
      simp only [List.headD_cons]
      exact div_self (by positivity)
    rw [this]
    norm_num
  have := placement_distance_invariant [2 * Real.pi, 2 * Real.pi] 0
    ⟨0, 1, 1⟩ ⟨1.3, 1, 2⟩
    (by intro m hm; rcases List.mem_cons.mp hm with h | h
        · rw [h]; positivity
        · simp at h; rw [h]; positivity)
    h0 h1 hb
  simpa using this

/-- Claim C3: For every non-empty magnitude sequence the placement output has
the input's length, starts at `(x = 0, y = magnitudes[0]/(2π))`, every
`y` equals its magnitude divided by `2π` exactly, and the `x` values are
monotonically non-decreasing (in both the sqrt branch and the fallback). -/
theorem calculate_shape (mags : List ℝ) (h : mags ≠ []) :
    (calculate mags).length = mags.length ∧
    (calculate mags).head? = some ⟨0, mags.headD 0 / (2 * Real.pi), 1⟩ ∧
    (calculate mags).map (fun p => p.y) = mags.map (fun m => m / (2 * Real.pi)) ∧
    List.Chain' (fun p q : ProfilePoint => p.x ≤ q.x) (calculate mags) := by
  refine ⟨calculate_length mags, ?_, ?_, ?_⟩
  · cases mags with
    | nil => exact absurd rfl h
    | cons c cs => rfl
  · have := calculate_map_y mags
    simpa [circumferenceToRadius] using this
  · exact (chain_calculate mags).imp
      (fun a b hab => placementStep_x_le (baseRadiusOf mags) a b hab)

/-- Witness for C3 at the concrete input `[2π]`. -/
theorem calculate_shape_witness :
    (calculate [2 * Real.pi]).length = 1 ∧
    (calculate [2 * Real.pi]).head? = some ⟨0, 1, 1⟩ := by
  have h := calculate_shape [2 * Real.pi] (by simp)
  have h2pi : (2 : ℝ) * Real.pi ≠ 0 := by positivity
  refine ⟨by simpa using h.1, ?_⟩
  have := h.2.1
  simpa [div_self h2pi] using this

theorem calculate_fallback_pair :
    calculate [2 * Real.pi, 2 * Real.pi * 10] =
      [⟨0, 1, 1⟩, ⟨0, 10, 2⟩] := by
  have h2pi : (2 : ℝ) * Real.pi ≠ 0 := by positivity
  have hr : circumferenceToRadius (2 * Real.pi) = 1 := by
    unfold circumferenceToRadius
    exact div_self h2pi
  have hr10 : circumferenceToRadius (2 * Real.pi * 10) = 10 := by
    unfold circumferenceToRadius
    exact mul_div_cancel_left₀ 10 h2pi
  unfold calculate
  simp only [List.map_cons, List.map_nil, hr, hr10]
  unfold buildPoints calculateNextPoint
  norm_num
  simp [buildPoints]

/-- Claim C4: Whenever the placement discriminant is negative, the new point
keeps the previous point's `x` (vertical stacking), its `y` is the target
radius, and the diagnostic warning flag is raised; concretely, for
magnitudes `[2π, 2π·10]` both profile points share `x = 0`. -/
theorem fallback_vertical_stacking (baseRadius : ℝ) (prev : Point2) (targetY : ℝ)
    (h : baseRadius * 1.3 * (baseRadius * 1.3) -
        (targetY - prev.y) * (targetY - prev.y) < 0) :
    calculateNextPoint baseRadius prev targetY = (⟨prev.x, targetY⟩, true) ∧
    (calculate [2 * Real.pi, 2 * Real.pi * 10]).map (fun p => p.x) = [0, 0] := by
  constructor
  · unfold calculateNextPoint
    rw [if_neg (not_le.mpr h)]
  · rw [calculate_fallback_pair]
    rfl

/-- Witness for C4 at the concrete fallback input `baseRadius = 1`,
`prev = (0, 1)`, `targetY = 10` (radii `1, 10`, discriminant
`1.69 - 81 < 0`). -/
theorem fallback_vertical_stacking_witness :
    ((1 : ℝ) * 1.3 * (1 * 1.3) - ((10 : ℝ) - 1) * (10 - 1) < 0) ∧
    calculateNextPoint 1 ⟨0, 1⟩ 10 = (⟨0, 10⟩, true) := by
  have hlt : (1 : ℝ) * 1.3 * (1 * 1.3) -
      ((10 : ℝ) - (Point2.mk 0 1).y) * (10 - (Point2.mk 0 1).y) < 0 := by
    norm_num
  exact ⟨by norm_num, (fallback_vertical_stacking 1 ⟨0, 1⟩ 10 hlt).1⟩

/-! ## Shape3DRenderer (src/modules/shape3DRenderer.js)

Constructor constants of the renderer. -/

/-- Source `this.rotationDivisions = 16`. -/
def rotationDivisions : ℕ := 16

/-- Source `this.alphaRadius = 1.5`. -/
noncomputable def alphaRadius : ℝ := 1.5

/-- Source `this.envelopeSmoothing = 0.3`. -/
noncomputable def envelopeSmoothing : ℝ := 0.3

/-- The subsampling loop of `generateEnvelope`:
`for (let i = 0; i < pointCloud2D.length; i += sampleStep)` visits exactly
the indices `i < length` with `i % sampleStep = 0` (where
`sampleStep = max(1, floor(length / 8)) ≥ 1`), and pushes the point with
its `y` expanded by `alphaRadius`. -/
noncomputable def envelopeSample (pointCloud2D : List Point2) : List Point2 :=
  let sampleStep := max 1 (pointCloud2D.length / 8)
  ((List.range pointCloud2D.length).filter (fun i => i % sampleStep = 0)).map
    (fun i =>
      let point := pointCloud2D.getD i ⟨0, 0⟩
      ⟨point.x, point.y * alphaRadius⟩)

/-- The pre-smoothing envelope of `generateEnvelope`: the subsampled points
followed by the force-appended last point.  The source guards the append
with `envelope[envelope.length-1] !== pointCloud2D[pointCloud2D.length-1]`
(JavaScript reference identity) — but every element of `envelope` is a
freshly constructed object literal, so the two references are never equal
and the append always happens. -/
noncomputable def envelopeRaw (pointCloud2D : List Point2) : List Point2 :=
  envelopeSample pointCloud2D ++
    [⟨(pointCloud2D.getLastD ⟨0, 0⟩).x,
      (pointCloud2D.getLastD ⟨0, 0⟩).y * alphaRadius⟩]

/-- Source `smoothEnvelope(envelope)`: one pass of the 3-point weighted moving
average with weight `envelopeSmoothing`; `prev`/`next` clamp to the list
boundary (`Math.max(0, i-1)` is truncated subtraction on `ℕ`). -/
noncomputable def smoothEnvelope (envelope : List Point2) : List Point2 :=
  if envelope.length < 3 then envelope
  else
    (List.range envelope.length).map (fun i =>
      let prev := envelope.getD (i - 1) ⟨0, 0⟩
      let curr := envelope.getD i ⟨0, 0⟩
      let next := envelope.getD (min (envelope.length - 1) (i + 1)) ⟨0, 0⟩
      let weight := envelopeSmoothing
      ⟨curr.x * (1 - weight) + (prev.x + next.x) * weight / 2,
       curr.y * (1 - weight) + (prev.y + next.y) * weight / 2⟩)

/-- Source `generateEnvelope(pointCloud2D)`: return short profiles unchanged,
otherwise subsample, force-append the last point, and smooth (the
smoothing weight `0.3` is positive, so the smoothing pass always runs). -/
noncomputable def generateEnvelope (pointCloud2D : List Point2) : List Point2 :=
  if pointCloud2D.length < 2 then pointCloud2D
  else
    let envelope := envelopeRaw pointCloud2D
    if 0 < envelopeSmoothing then smoothEnvelope envelope else envelope

/-- A 3D vector `{x, y, z}`. -/
structure Vec3 where
  x : ℝ
  y : ℝ
  z : ℝ

/-- A generated 3D vertex.  The vertices produced by `generate3DPoints`
carry the tags `originalIndex`/`rotationIndex`; the cap-center vertex
pushed by `generateMesh` is a plain `{x, y, z}` object without them,
modelled by `none`. -/
structure Vertex3 where
  x : ℝ
  y : ℝ
  z : ℝ
  originalIndex : Option ℕ
  rotationIndex : Option ℕ

/-- The position of a vertex. -/
def vpos (v : Vertex3) : Vec3 :=
  ⟨v.x, v.y, v.z⟩

/-- The inner rotation loop of `generate3DPoints` for one envelope point
`p` with index `k`: for `i` in `[0, divisions)`, rotate about the x-axis
by `angle = 2π·i/divisions`. -/
noncomputable def ringVertices (p : Point2) (k : ℕ) (divisions : ℕ) : List Vertex3 :=
  (List.range divisions).map (fun (i : ℕ) =>
    let angle := 2 * Real.pi * (i : ℝ) / (divisions : ℝ)
    ⟨p.x, p.y * Real.cos angle, p.y * Real.sin angle, some k, some i⟩)

/-- The outer `forEach` loop of `generate3DPoints`, with the running
point index made explicit. -/
noncomputable def generate3DPointsAux (divisions : ℕ) :
    ℕ → List Point2 → List Vertex3
  | _, [] => []
  | k, p :: rest =>
    ringVertices p k divisions ++ generate3DPointsAux divisions (k + 1) rest

/-- Source `generate3DPoints(pointCloud2D)`: one ring of `divisions` vertices per
envelope point, in point order. -/
noncomputable def generate3DPoints (pointCloud2D : List Point2)
    (divisions : ℕ) : List Vertex3 :=
  generate3DPointsAux divisions 0 pointCloud2D

/-- A face color: `hsl(hue, 70%, 60%)` for side faces, the fixed
`#666666` for cap faces. -/
inductive FaceColor where
  | hsl (hue : ℕ)
  | gray
deriving DecidableEq

/-- Source `getColorForFace(ringIndex, segmentIndex)`:
`hue = (ringIndex * 30 + segmentIndex * 5) % 360`. -/
def getColorForFace (ringIndex segmentIndex : ℕ) : FaceColor :=
  FaceColor.hsl ((ringIndex * 30 + segmentIndex * 5) % 360)

/-- A triangle face `{indices, color}`. -/
structure Face where
  indices : List ℕ
  color : FaceColor

/-- The body of the side-face double loop of `generateMesh`: the quad at
ring `i`, segment `j`, split into two triangles sharing the diagonal
`idx1`–`idx3`. -/
def quadFaces (i j divisions : ℕ) : List Face :=
  let nextJ := (j + 1) % divisions
  let idx1 := i * divisions + j
  let idx2 := i * divisions + nextJ
  let idx3 := (i + 1) * divisions + nextJ
  let idx4 := (i + 1) * divisions + j
  [⟨[idx1, idx2, idx3], getColorForFace i j⟩,
   ⟨[idx1, idx3, idx4], getColorForFace i j⟩]

/-- The side-face double loop of `generateMesh`: for each adjacent ring
pair `i` and each angular segment `j`, two triangles covering the quad. -/
def sideFaces (pointCount divisions : ℕ) : List Face :=
  (List.range (pointCount - 1)).flatMap (fun i =>
    (List.range divisions).flatMap (fun j => quadFaces i j divisions))

/-- Source `generateMesh(pointCloud2D)`: the side faces, plus — when the first
envelope point has `x ≠ 0` — a cap-center vertex pushed onto
`this.points3D` (at index `points3D.length`) and one cap triangle per
angular segment.  Returns the faces together with the updated
`this.points3D`. -/
noncomputable def generateMesh (pointCloud2D : List Point2)
    (points3D : List Vertex3) (divisions : ℕ) : List Face × List Vertex3 :=
  let faces := sideFaces pointCloud2D.length divisions
  match pointCloud2D with
  | [] => (faces, points3D)
  | p0 :: _ =>
    if p0.x ≠ 0 then
      let centerIndex := points3D.length
      let capFaces := (List.range divisions).map (fun j =>
        Face.mk [centerIndex, (j + 1) % divisions, j] FaceColor.gray)
      (faces ++ capFaces, points3D ++ [⟨p0.x, 0, 0, none, none⟩])
    else (faces, points3D)

/-- Source `calculateCentroid()`: accumulate the coordinate sums over
`this.points3D` and divide by the point count; the empty mesh yields
`{0, 0, 0}`. -/
noncomputable def calculateCentroid (points3D : List Vertex3) : Vec3 :=
  if points3D.length = 0 then ⟨0, 0, 0⟩
  else
    let sums := points3D.foldl
      (fun acc p => (acc.1 + p.x, acc.2.1 + p.y, acc.2.2 + p.z)) (0, 0, 0)
    ⟨sums.1 / points3D.length, sums.2.1 / points3D.length,
     sums.2.2 / points3D.length⟩

/-- The generated 3D shape `{points, faces, centroid}`. -/
structure Shape where
  points : List Vertex3
  faces : List Face
  centroid : Vec3

/-- Source `generateShape(pointCloud2D)`: envelope, then 3D points, then mesh
(which may push the cap vertex), then the centroid of the final vertex
list. -/
noncomputable def generateShape (pointCloud2D : List Point2) : Shape :=
  let envelopePoints := generateEnvelope pointCloud2D
  let points3D := generate3DPoints envelopePoints rotationDivisions
  let md := generateMesh envelopePoints points3D rotationDivisions
  ⟨md.2, md.1, calculateCentroid md.2⟩

/-- Claim C1 (behaviour of the code at the failing input): for the length-2
profile `[(0,1), (1,2)]` the stride is `1` and the stride loop visits the
last index, yet the pre-smoothing envelope ends with the expanded last
point *twice* — the reference-identity guard compares freshly constructed
objects and never suppresses the append. -/
theorem envelope_last_point_duplicated :
    envelopeRaw [⟨0, 1⟩, ⟨1, 2⟩] = [⟨0, 1.5⟩, ⟨1, 3⟩, ⟨1, 3⟩] := by
  unfold envelopeRaw envelopeSample alphaRadius
  norm_num [List.range_succ]

theorem ringVertices_length (p : Point2) (k divisions : ℕ) :
    (ringVertices p k divisions).length = divisions := by
  simp [ringVertices]

theorem generate3DPointsAux_length (divisions : ℕ) :
    ∀ (pc : List Point2) (k : ℕ),
      (generate3DPointsAux divisions k pc).length = pc.length * divisions := by
  intro pc
  induction pc with
  | nil => intro k; simp [generate3DPointsAux]
  | cons p rest ih =>
    intro k
    simp only [generate3DPointsAux, List.length_append, ringVertices_length,
      ih, List.length_cons]
    ring

theorem generate3DPoints_length (pc : List Point2) (divisions : ℕ) :
    (generate3DPoints pc divisions).length = pc.length * divisions :=
  generate3DPointsAux_length divisions pc 0

theorem ringVertices_get (p : Point2) (k divisions j : ℕ) (hj : j < divisions) :
    (ringVertices p k divisions).get? j =
      some ⟨p.x, p.y * Real.cos (2 * Real.pi * (j : ℝ) / (divisions : ℝ)),
        p.y * Real.sin (2 * Real.pi * (j : ℝ) / (divisions : ℝ)),
        some k, some j⟩ := by
  unfold ringVertices
  rw [List.get?_map, List.get?_eq_getElem?, List.getElem?_range hj]
  rfl

theorem generate3DPointsAux_get (divisions : ℕ) :
    ∀ (pc : List Point2) (s k j : ℕ), k < pc.length → j < divisions →
      (generate3DPointsAux divisions s pc).get? (k * divisions + j) =
        some ⟨(pc.getD k ⟨0, 0⟩).x,
          (pc.getD k ⟨0, 0⟩).y * Real.cos (2 * Real.pi * (j : ℝ) / (divisions : ℝ)),
          (pc.getD k ⟨0, 0⟩).y * Real.sin (2 * Real.pi * (j : ℝ) / (divisions : ℝ)),
          some (s + k), some j⟩ := by
  intro pc
  induction pc with
  | nil => intro s k j hk _; exact absurd hk (by simp)
  | cons p rest ih =>
    intro s k j hk hj
    cases k with
    | zero =>
      simp only [generate3DPointsAux, Nat.zero_mul, Nat.zero_add]
      rw [List.get?_append (by rw [ringVertices_length]; exact hj)]
      rw [ringVertices_get p s divisions j hj]
      simp
    | succ k' =>
      simp only [generate3DPointsAux]
      rw [List.get?_append_right (by rw [ringVertices_length]; nlinarith)]
      rw [ringVertices_length]
      have harith : (k' + 1) * divisions + j - divisions = k' * divisions + j := by
        have : (k' + 1) * divisions = k' * divisions + divisions := by ring
        omega
      rw [harith, ih (s + 1) k' j (by simpa using hk) hj]
      have hs : s + 1 + k' = s + (k' + 1) := by omega
      rw [hs]
      rfl

/-- Claim C6: For every envelope point at index `k` and angular step
`j < divisions`, the generated vertex list stores
`(p.x, p.y·cos(2πj/divisions), p.y·sin(2πj/divisions))`, tagged with
`originalIndex = k` and `rotationIndex = j`, at flat index
`k·divisions + j` (ring-major order); and the list has exactly
`length × divisions` entries (these tagged vertices are exactly the
non-cap vertices). -/
theorem generate3DPoints_ring_major (env : List Point2) (divisions k j : ℕ)
    (hk : k < env.length) (hj : j < divisions) :
    (generate3DPoints env divisions).length = env.length * divisions ∧
    (generate3DPoints env divisions).get? (k * divisions + j) =
      some ⟨(env.getD k ⟨0, 0⟩).x,
        (env.getD k ⟨0, 0⟩).y * Real.cos (2 * Real.pi * (j : ℝ) / (divisions : ℝ)),
        (env.getD k ⟨0, 0⟩).y * Real.sin (2 * Real.pi * (j : ℝ) / (divisions : ℝ)),
        some k, some j⟩ := by
  refine ⟨generate3DPoints_length env divisions, ?_⟩
  have h := generate3DPointsAux_get divisions env 0 k j hk hj
  simpa [generate3DPoints] using h

/-- Witness for C6 at the one-point envelope `[(1, 2)]` with 16 divisions,
`k = j = 0`. -/
theorem generate3DPoints_ring_major_witness :
    (generate3DPoints [⟨1, 2⟩] 16).length = 16 ∧
    (generate3DPoints [⟨1, 2⟩] 16).get? 0 =
      some ⟨1, 2 * Real.cos 0, 2 * Real.sin 0, some 0, some 0⟩ := by
  have h := generate3DPoints_ring_major [⟨1, 2⟩] 16 0 0 (by simp) (by norm_num)
  constructor
  · simpa using h.1
  · have h2 := h.2
    norm_num at h2
    simpa using h2

theorem flatMap_const_length {α β : Type} (l : List α) (f : α → List β)
    (c : ℕ) (hf : ∀ a, (f a).length = c) :
    (l.flatMap f).length = l.length * c := by
  induction l with
  | nil => simp
  | cons a t ih =>
    simp only [List.flatMap_cons, List.length_append, hf, ih, List.length_cons]
    ring

theorem sideFaces_length (pointCount divisions : ℕ) :
    (sideFaces pointCount divisions).length =
      2 * divisions * (pointCount - 1) := by
  unfold sideFaces
  rw [flatMap_const_length _ _ (2 * divisions) (fun i => by
    rw [flatMap_const_length (List.range divisions)
      (fun j => quadFaces i j divisions) 2 (fun j => rfl)]
    simp [Nat.mul_comm])]
  simp [Nat.mul_comm, Nat.mul_left_comm]

theorem ring_index_lt (L divisions i j : ℕ) (hi : i < L) (hj : j < divisions) :
    i * divisions + j < L * divisions := by
  calc i * divisions + j < i * divisions + divisions := by omega
    _ = (i + 1) * divisions := by ring
    _ ≤ L * divisions := Nat.mul_le_mul_right divisions hi

theorem sideFaces_indices_lt (pointCount divisions : ℕ) :
    ∀ f ∈ sideFaces pointCount divisions, ∀ idx ∈ f.indices,
      idx < pointCount * divisions := by
  intro f hf idx hidx
  unfold sideFaces at hf
  rw [List.mem_flatMap] at hf
  obtain ⟨i, hi, hf⟩ := hf
  rw [List.mem_flatMap] at hf
  obtain ⟨j, hj, hf⟩ := hf
  rw [List.mem_range] at hi hj
  have hD : (j + 1) % divisions < divisions := Nat.mod_lt _ (by omega)
  have hi1 : i < pointCount := by omega
  have hi2 : i + 1 < pointCount := by omega
  simp only [quadFaces, List.mem_cons, List.not_mem_nil, or_false] at hf
  rcases hf with hf | hf <;> rw [hf] at hidx <;>
    simp only [List.mem_cons, List.not_mem_nil, or_false] at hidx <;>
    rcases hidx with h | h | h <;> rw [h]
  · exact ring_index_lt _ _ _ _ hi1 hj
  · exact ring_index_lt _ _ _ _ hi1 hD
  · exact ring_index_lt _ _ _ _ hi2 hD
  · exact ring_index_lt _ _ _ _ hi1 hj
  · exact ring_index_lt _ _ _ _ hi2 hD
  · exact ring_index_lt _ _ _ _ hi2 hj

/-- Claim C5: For an envelope of length `L ≥ 1` and `divisions = D`: the
mesh has `L·D` vertices plus one cap-center vertex exactly when the first
envelope point's `x` is nonzero; the side-face count is `2·D·(L-1)`; the
cap-face count is `D` when the cap vertex is added and `0` otherwise; and
every face index references a valid vertex position. -/
theorem mesh_counts (env : List Point2) (divisions : ℕ) (h : env ≠ []) :
    ((generateMesh env (generate3DPoints env divisions) divisions).2).length =
      env.length * divisions +
        (if (env.headD ⟨0, 0⟩).x ≠ 0 then 1 else 0) ∧
    (sideFaces env.length divisions).length =
      2 * divisions * (env.length - 1) ∧
    ((generateMesh env (generate3DPoints env divisions) divisions).1).length =
      2 * divisions * (env.length - 1) +
        (if (env.headD ⟨0, 0⟩).x ≠ 0 then divisions else 0) ∧
    ∀ f ∈ (generateMesh env (generate3DPoints env divisions) divisions).1,
      ∀ idx ∈ f.indices,
        idx < ((generateMesh env (generate3DPoints env divisions) divisions).2).length := by
  cases env with
  | nil => exact absurd rfl h
  | cons p0 rest =>
    by_cases hx : p0.x ≠ 0
    · simp only [generateMesh, if_pos hx, List.headD_cons]
      refine ⟨?_, sideFaces_length _ _, ?_, ?_⟩
      · simp [generate3DPoints_length]
      · simp [sideFaces_length]
      · intro f hf idx hidx
        simp only [List.length_append, List.length_cons, List.length_nil,
          generate3DPoints_length]
        rw [List.mem_append] at hf
        rcases hf with hf | hf
        · have hlt := sideFaces_indices_lt (p0 :: rest).length divisions f hf idx hidx
          simp only [List.length_cons] at hlt
          omega
        · rw [List.mem_map] at hf
          obtain ⟨jj, hjj, hface⟩ := hf
          rw [List.mem_range] at hjj
          rw [← hface] at hidx
          simp only [List.mem_cons, List.not_mem_nil, or_false] at hidx
          have hD : (jj + 1) % divisions < divisions := Nat.mod_lt _ (by omega)
          have hcenter : (generate3DPoints (p0 :: rest) divisions).length =
              (rest.length + 1) * divisions := by
            rw [generate3DPoints_length]
            simp
          have hLD : divisions ≤ (rest.length + 1) * divisions := by
            have h1 : 1 * divisions ≤ (rest.length + 1) * divisions :=
              Nat.mul_le_mul_right divisions (by omega)
            simpa using h1
          rcases hidx with hi | hi | hi <;> omega
    · simp only [generateMesh, if_neg hx, List.headD_cons]
      refine ⟨?_, sideFaces_length _ _, ?_, ?_⟩
      · simp [generate3DPoints_length]
      · simp [sideFaces_length]
      · intro f hf idx hidx
        have hlt := sideFaces_indices_lt (p0 :: rest).length divisions f hf idx hidx
        simp only [List.length_cons] at hlt
        rw [generate3DPoints_length]
        simp only [List.length_cons]
        omega

/-- Witness for C5 at the one-point envelope `[(1, 1)]` with 16
divisions: 16 ring vertices plus one cap vertex, no side faces, 16 cap
faces. -/
theorem mesh_counts_witness :
    ((generateMesh [⟨1, 1⟩] (generate3DPoints [⟨1, 1⟩] 16) 16).2).length = 17 ∧
    ((generateMesh [⟨1, 1⟩] (generate3DPoints [⟨1, 1⟩] 16) 16).1).length = 16 := by
  have h := mesh_counts [⟨1, 1⟩] 16 (by simp)
  have hx : ((List.cons (Point2.mk 1 1) []).headD ⟨0, 0⟩).x ≠ 0 := by
    norm_num
  constructor
  · rw [h.1, if_pos hx]
    norm_num
  · rw [h.2.2.1, if_pos hx]
    norm_num

/-- Modelled from the spec's words: the component-wise arithmetic mean of
a vertex list ("centroid equals the arithmetic mean of all generated
vertex coordinates component-wise"). -/
noncomputable def vertexMean (pts : List Vertex3) : Vec3 :=
  ⟨(pts.map (fun v => v.x)).sum / pts.length,
   (pts.map (fun v => v.y)).sum / pts.length,
   (pts.map (fun v => v.z)).sum / pts.length⟩

theorem centroid_foldl (pts : List Vertex3) :
    ∀ (a b c : ℝ),
      pts.foldl (fun acc p => (acc.1 + p.x, acc.2.1 + p.y, acc.2.2 + p.z))
        (a, b, c) =
      (a + (pts.map (fun v => v.x)).sum, b + (pts.map (fun v => v.y)).sum,
        c + (pts.map (fun v => v.z)).sum) := by
  induction pts with
  | nil => intro a b c; simp
  | cons p rest ih =>
    intro a b c
    simp only [List.foldl_cons, List.map_cons, List.sum_cons, ih]
    refine Prod.ext ?_ (Prod.ext ?_ ?_) <;> dsimp <;> ring

theorem calculateCentroid_eq_mean (pts : List Vertex3) (h : pts ≠ []) :
    calculateCentroid pts = vertexMean pts := by
  unfold calculateCentroid vertexMean
  rw [if_neg (by simpa using h)]
  rw [centroid_foldl pts 0 0 0]
  simp

/-- Claim C7: The centroid of every generated shape with at least one vertex
is the component-wise arithmetic mean of *all* generated vertices, and
the vertex list it is computed over is exactly the post-`generateMesh`
list — i.e. it includes the extra cap-center vertex whenever one was
appended. -/
theorem centroid_is_mean (pc : List Point2)
    (h : (generateShape pc).points ≠ []) :
    (generateShape pc).centroid = vertexMean (generateShape pc).points ∧
    (generateShape pc).points =
      (generateMesh (generateEnvelope pc)
        (generate3DPoints (generateEnvelope pc) rotationDivisions)
        rotationDivisions).2 := by
  refine ⟨?_, rfl⟩
  exact calculateCentroid_eq_mean _ h

theorem generateShape_single_points :
    (generateShape [⟨1, 1⟩]).points =
      generate3DPoints [⟨1, 1⟩] 16 ++ [⟨1, 0, 0, none, none⟩] := by
  have henv : generateEnvelope [⟨1, 1⟩] = [⟨1, 1⟩] := by
    unfold generateEnvelope
    norm_num
  show (generateMesh (generateEnvelope [⟨1, 1⟩])
    (generate3DPoints (generateEnvelope [⟨1, 1⟩]) rotationDivisions)
    rotationDivisions).2 = _
  rw [henv]
  show (generateMesh [⟨1, 1⟩] (generate3DPoints [⟨1, 1⟩] 16) 16).2 = _
  unfold generateMesh
  dsimp only
  rw [if_pos (show (1 : ℝ) ≠ 0 by norm_num)]

theorem generateShape_single_ne : (generateShape [⟨1, 1⟩]).points ≠ [] := by
  rw [generateShape_single_points]
  simp

/-- Witness for C7 at the profile `[(1, 1)]`, whose envelope head has
`x = 1 ≠ 0` so that the cap-center vertex is appended before the centroid
is taken. -/
theorem centroid_is_mean_witness :
    (generateShape [⟨1, 1⟩]).points ≠ [] ∧
    (generateShape [⟨1, 1⟩]).centroid =
      vertexMean (generateShape [⟨1, 1⟩]).points :=
  ⟨generateShape_single_ne,
    (centroid_is_mean [⟨1, 1⟩] generateShape_single_ne).1⟩

/-- The interactive view rotation `this.rotation = {x, y, z}` (radians). -/
structure Rotation where
  x : ℝ
  y : ℝ
  z : ℝ

/-- Source `rotatePoint(point)`: translate to centroid-relative coordinates,
rotate about the X axis by `rotation.x`, then about the Y axis by
`rotation.y` (the `z` component of `this.rotation` is never read), and
translate back. -/
noncomputable def rotatePoint (rotation : Rotation) (centroid : Vec3)
    (point : Vec3) : Vec3 :=
  let x := point.x - centroid.x
  let y := point.y - centroid.y
  let z := point.z - centroid.z
  let cosX := Real.cos rotation.x
  let sinX := Real.sin rotation.x
  let y1 := y * cosX - z * sinX
  let z1 := y * sinX + z * cosX
  let cosY := Real.cos rotation.y
  let sinY := Real.sin rotation.y
  let x2 := x * cosY + z1 * sinY
  let z2 := -x * sinY + z1 * cosY
  ⟨x2 + centroid.x, y1 + centroid.y, z2 + centroid.z⟩

/-- Source `project3DTo2D(point)`: rotate, take the centroid-relative position,
and apply the perspective projection with focal constant 500; the
returned `z` is the centroid-relative rotated depth. -/
noncomputable def project3DTo2D (rotation : Rotation) (centroid : Vec3)
    (zoom width height : ℝ) (point : Vec3) : Vec3 :=
  let rotated := rotatePoint rotation centroid point
  let relX := rotated.x - centroid.x
  let relY := rotated.y - centroid.y
  let relZ := rotated.z - centroid.z
  let perspective : ℝ := 500
  let scale := perspective / (perspective + relZ) * zoom * 50
  ⟨width / 2 + relX * scale, height / 2 - relY * scale, relZ⟩

/-- Rotation about the X axis (spec wording). -/
noncomputable def xAxisRotation (angle : ℝ) (v : Vec3) : Vec3 :=
  ⟨v.x, v.y * Real.cos angle - v.z * Real.sin angle,
   v.y * Real.sin angle + v.z * Real.cos angle⟩

/-- Rotation about the Y axis (spec wording). -/
noncomputable def yAxisRotation (angle : ℝ) (v : Vec3) : Vec3 :=
  ⟨v.x * Real.cos angle + v.z * Real.sin angle, v.y,
   -v.x * Real.sin angle + v.z * Real.cos angle⟩

/-- Modelled from the spec's words (§4.4): translate the vertex to
centroid-relative coordinates, apply the X-axis rotation then the Y-axis
rotation, and with `rel` the resulting centroid-relative vector return
`screenX = width/2 + rel.x·scale`, `screenY = height/2 - rel.y·scale`
with `scale = 500/(500 + rel.z)·zoom·50`, and `depth = rel.z`. -/
noncomputable def projectSpec (rotation : Rotation) (centroid : Vec3)
    (zoom width height : ℝ) (point : Vec3) : Vec3 :=
  let rel := yAxisRotation rotation.y (xAxisRotation rotation.x
    ⟨point.x - centroid.x, point.y - centroid.y, point.z - centroid.z⟩)
  let scale := 500 / (500 + rel.z) * zoom * 50
  ⟨width / 2 + rel.x * scale, height / 2 - rel.y * scale, rel.z⟩

/-- Claim C8: The projection of the code coincides, for every vertex, view
state, zoom, centroid and viewport, with the spec's formula — rotate
about the centroid by `rotationX` then `rotationY`, then perspective
projection of the centroid-relative coordinates with
`scale = 500/(500+relZ)·zoom·50` and `depth = relZ` — and it never
depends on `rotationZ`. -/
theorem project_matches_spec (rotation : Rotation) (centroid : Vec3)
    (zoom width height : ℝ) (point : Vec3) (z z' : ℝ) :
    project3DTo2D rotation centroid zoom width height point =
      projectSpec rotation centroid zoom width height point ∧
    project3DTo2D ⟨rotation.x, rotation.y, z⟩ centroid zoom width height point =
      project3DTo2D ⟨rotation.x, rotation.y, z'⟩ centroid zoom width height point := by
  constructor
  · unfold project3DTo2D projectSpec rotatePoint xAxisRotation yAxisRotation
    dsimp only
    have hz : ((-(point.x - centroid.x) * Real.sin rotation.y +
        ((point.y - centroid.y) * Real.sin rotation.x +
          (point.z - centroid.z) * Real.cos rotation.x) * Real.cos rotation.y) +
        centroid.z) - centroid.z =
        -(point.x - centroid.x) * Real.sin rotation.y +
        ((point.y - centroid.y) * Real.sin rotation.x +
          (point.z - centroid.z) * Real.cos rotation.x) * Real.cos rotation.y := by
      ring
    rw [hz]
    refine congrArg₂ (fun a b => Vec3.mk a b _) ?_ ?_ <;> ring
  · rfl

/-- The divisor of the perspective division in `project3DTo2D`:
`perspective + relZ` with `perspective = 500`. -/
noncomputable def perspectiveDivisor (rotation : Rotation) (centroid : Vec3)
    (point : Vec3) : ℝ :=
  500 + ((rotatePoint rotation centroid point).z - centroid.z)

/-- Claim C10: The perspective division is unguarded: at the concrete input
`point = (0, 0, -500)` with identity rotation, zero centroid, `zoom = 1`
and an 800×600 viewport, the divisor `perspective + relZ` is exactly `0`.
The source computes `scale = 500/0 * zoom * 50` regardless (in
JavaScript this produces a non-finite number; in this total embedding
`ℝ`-division by zero yields the junk value `0`, so the projected point
degenerates to the viewport centre `(400, 300)` with `depth = -500`) —
any total reimplementation must handle this branch or assume
`relZ > -500`. -/
theorem perspective_division_unguarded :
    perspectiveDivisor ⟨0, 0, 0⟩ ⟨0, 0, 0⟩ ⟨0, 0, -500⟩ = 0 ∧
    project3DTo2D ⟨0, 0, 0⟩ ⟨0, 0, 0⟩ 1 800 600 ⟨0, 0, -500⟩ =
      ⟨400, 300, -500⟩ := by
  constructor
  · unfold perspectiveDivisor rotatePoint
    norm_num
  · unfold project3DTo2D rotatePoint
    norm_num

theorem list_sum_map_range (n : ℕ) (f : ℕ → ℝ) :
    ((List.range n).map f).sum = ∑ j in Finset.range n, f j := by
  induction n with
  | zero => simp
  | succ m ih =>
    rw [List.range_succ, List.map_append, List.sum_append,
      Finset.sum_range_succ, ih]
    simp

theorem exp_sixteenth_ne_one :
    Complex.exp (2 * (Real.pi : ℂ) * Complex.I / 16) ≠ 1 := by
  intro hone
  have him : (Complex.exp (2 * (Real.pi : ℂ) * Complex.I / 16)).im =
      Real.sin (2 * Real.pi / 16) := by
    rw [show (2 * (Real.pi : ℂ) * Complex.I / 16) =
      ((2 * Real.pi / 16 : ℝ) : ℂ) * Complex.I by push_cast; ring]
    exact Complex.exp_ofReal_mul_I_im _
  rw [hone] at him
  have hsin : 0 < Real.sin (2 * Real.pi / 16) := by
    apply Real.sin_pos_of_pos_of_lt_pi
    · positivity
    · nlinarith [Real.pi_pos]
  rw [Complex.one_im] at him
  linarith [him, hsin]

theorem exp_sixteenth_pow :
    Complex.exp (2 * (Real.pi : ℂ) * Complex.I / 16) ^ 16 = 1 := by
  rw [← Complex.exp_nat_mul]
  rw [show ((16 : ℕ) : ℂ) * (2 * (Real.pi : ℂ) * Complex.I / 16) =
    2 * (Real.pi : ℂ) * Complex.I by push_cast; ring]
  exact Complex.exp_two_pi_mul_I

theorem sum_exp_sixteenth :
    ∑ j in Finset.range 16,
      Complex.exp (2 * (Real.pi : ℂ) * Complex.I / 16) ^ j = 0 := by
  rw [geom_sum_eq exp_sixteenth_ne_one 16, exp_sixteenth_pow]
  simp

theorem sum_sin_sixteenth :
    ∑ j in Finset.range 16, Real.sin (2 * Real.pi * (j : ℝ) / 16) = 0 := by
  have hterm : ∀ j ∈ Finset.range 16,
      (Complex.exp (2 * (Real.pi : ℂ) * Complex.I / 16) ^ j).im =
        Real.sin (2 * Real.pi * (j : ℝ) / 16) := by
    intro j _
    rw [← Complex.exp_nat_mul]
    rw [show ((j : ℕ) : ℂ) * (2 * (Real.pi : ℂ) * Complex.I / 16) =
      ((2 * Real.pi * (j : ℝ) / 16 : ℝ) : ℂ) * Complex.I by push_cast; ring]
    exact Complex.exp_ofReal_mul_I_im _
  calc ∑ j in Finset.range 16, Real.sin (2 * Real.pi * (j : ℝ) / 16)
      = ∑ j in Finset.range 16,
          (Complex.exp (2 * (Real.pi : ℂ) * Complex.I / 16) ^ j).im :=
        (Finset.sum_congr rfl hterm).symm
    _ = (∑ j in Finset.range 16,
          Complex.exp (2 * (Real.pi : ℂ) * Complex.I / 16) ^ j).im :=
        (Complex.im_sum _ _).symm
    _ = 0 := by rw [sum_exp_sixteenth]; rfl

theorem ringVertices_z_sum (p : Point2) (k : ℕ) :
    ((ringVertices p k rotationDivisions).map (fun v => v.z)).sum = 0 := by
  have h1 : ((ringVertices p k rotationDivisions).map (fun v => v.z)).sum
      = ∑ j in Finset.range 16, p.y * Real.sin (2 * Real.pi * (j : ℝ) / 16) := by
    unfold ringVertices rotationDivisions
    rw [List.map_map, list_sum_map_range]
    apply Finset.sum_congr rfl
    intro j _
    norm_num [Function.comp_def]
  rw [h1, ← Finset.mul_sum, sum_sin_sixteenth, mul_zero]

theorem generate3DPointsAux_z_sum :
    ∀ (pc : List Point2) (k : ℕ),
      ((generate3DPointsAux rotationDivisions k pc).map
        (fun v => v.z)).sum = 0 := by
  intro pc
  induction pc with
  | nil => intro k; simp [generate3DPointsAux]
  | cons p rest ih =>
    intro k
    simp only [generate3DPointsAux, List.map_append, List.sum_append]
    rw [ringVertices_z_sum, ih]
    norm_num

theorem generateShape_z_sum (pc : List Point2) :
    (((generateShape pc).points).map (fun v => v.z)).sum = 0 := by
  show (((generateMesh (generateEnvelope pc)
    (generate3DPoints (generateEnvelope pc) rotationDivisions)
    rotationDivisions).2).map (fun v => v.z)).sum = 0
  generalize generateEnvelope pc = env
  unfold generateMesh
  cases env with
  | nil =>
    dsimp only
    exact generate3DPointsAux_z_sum [] 0
  | cons p0 rest =>
    dsimp only
    split
    · rw [List.map_append, List.sum_append]
      rw [show generate3DPoints (p0 :: rest) rotationDivisions =
        generate3DPointsAux rotationDivisions 0 (p0 :: rest) from rfl]
      rw [generate3DPointsAux_z_sum (p0 :: rest) 0]
      simp
    · exact generate3DPointsAux_z_sum (p0 :: rest) 0

theorem generateShape_centroid_z (pc : List Point2) :
    (generateShape pc).centroid.z = 0 := by
  show (calculateCentroid ((generateShape pc).points)).z = 0
  unfold calculateCentroid
  split
  · rfl
  · dsimp only
    rw [centroid_foldl _ 0 0 0]
    dsimp only
    rw [generateShape_z_sum pc]
    simp

/-- A canvas drawing command: `drawFace` fills a projected polygon with a
face color at partial opacity, `drawWireframe` strokes a projected
polygon outline. -/
inductive DrawCmd where
  | fill (points : List Vec3) (color : FaceColor)
  | stroke (points : List Vec3)

/-- The per-face depth computed in `render()`: the arithmetic mean of the
`rotatePoint(...)`.z values of the face's vertices (`avgZ`). -/
noncomputable def faceDepth (rotation : Rotation) (centroid : Vec3)
    (points3D : List Vertex3) (face : Face) : ℝ :=
  ((face.indices.map (fun idx =>
    (rotatePoint rotation centroid
      (vpos (points3D.getD idx ⟨0, 0, 0, none, none⟩))).z)).sum) /
    (face.indices.length : ℝ)

/-- Source `facesWithDepth` of `render()`: each face paired with its `avgZ`. -/
noncomputable def facesWithDepth (rotation : Rotation) (centroid : Vec3)
    (points3D : List Vertex3) (faces : List Face) : List (Face × ℝ) :=
  faces.map (fun f => (f, faceDepth rotation centroid points3D f))

/-- Source `facesWithDepth.sort((a, b) => a.avgZ - b.avgZ)`: ascending stable
sort by the assigned depth. -/
noncomputable def sortedByDepth (rotation : Rotation) (centroid : Vec3)
    (points3D : List Vertex3) (faces : List Face) : List (Face × ℝ) :=
  (facesWithDepth rotation centroid points3D faces).mergeSort
    (fun a b => decide (a.2 ≤ b.2))

/-- Source `drawFace(face, projectedPoints)`: fill the projected polygon with
the face's color. -/
noncomputable def drawFaceCmd (projectedPoints : List Vec3) (face : Face) :
    DrawCmd :=
  DrawCmd.fill (face.indices.map (fun idx => projectedPoints.getD idx ⟨0, 0, 0⟩))
    face.color

/-- Source `drawWireframe(projectedPoints)`: stroke every face's outline, in the
original (unsorted) `this.faces` order. -/
noncomputable def drawWireframeCmds (projectedPoints : List Vec3)
    (faces : List Face) : List DrawCmd :=
  faces.map (fun f =>
    DrawCmd.stroke (f.indices.map (fun idx => projectedPoints.getD idx ⟨0, 0, 0⟩)))

/-- Source `render()`: with no points, draw nothing (only the placeholder
message); otherwise project all points, fill the depth-sorted faces in
ascending-depth order, then stroke the full wireframe. -/
noncomputable def render (rotation : Rotation) (centroid : Vec3)
    (zoom width height : ℝ) (points3D : List Vertex3) (faces : List Face) :
    List DrawCmd :=
  if points3D.length = 0 then []
  else
    let projectedPoints := points3D.map (fun p =>
      project3DTo2D rotation centroid zoom width height (vpos p))
    (sortedByDepth rotation centroid points3D faces).map
      (fun fd => drawFaceCmd projectedPoints fd.1) ++
    drawWireframeCmds projectedPoints faces

/-- Claim C9: In every render frame over a generated shape: each face's
assigned depth equals the arithmetic mean of its vertices'
centroid-relative rotated depths (the `z` returned by the projection);
faces are filled in ascending order of that depth (painter's algorithm);
and only after all fills does the wireframe pass stroke every face in
the original, unsorted face order. -/
theorem render_painter (pc : List Point2) (rotation : Rotation)
    (zoom width height : ℝ) (hne : (generateShape pc).points ≠ []) :
    (∀ face : Face,
      faceDepth rotation (generateShape pc).centroid (generateShape pc).points
          face =
        ((face.indices.map (fun idx =>
          (project3DTo2D rotation (generateShape pc).centroid zoom width height
            (vpos ((generateShape pc).points.getD idx
              ⟨0, 0, 0, none, none⟩))).z)).sum) /
          (face.indices.length : ℝ)) ∧
    List.Pairwise (fun a b : Face × ℝ => a.2 ≤ b.2)
      (sortedByDepth rotation (generateShape pc).centroid
        (generateShape pc).points (generateShape pc).faces) ∧
    render rotation (generateShape pc).centroid zoom width height
        (generateShape pc).points (generateShape pc).faces =
      (sortedByDepth rotation (generateShape pc).centroid
          (generateShape pc).points (generateShape pc).faces).map
        (fun fd => drawFaceCmd ((generateShape pc).points.map (fun p =>
          project3DTo2D rotation (generateShape pc).centroid zoom width height
            (vpos p))) fd.1) ++
      drawWireframeCmds ((generateShape pc).points.map (fun p =>
        project3DTo2D rotation (generateShape pc).centroid zoom width height
          (vpos p))) (generateShape pc).faces := by
  have hc := generateShape_centroid_z pc
  refine ⟨?_, ?_, ?_⟩
  · intro face
    unfold faceDepth
    refine congrArg (fun s => s / ((face.indices.length : ℝ)))
      (congrArg List.sum (List.map_congr_left ?_))
    intro idx _
    rw [show (project3DTo2D rotation (generateShape pc).centroid zoom width
        height (vpos ((generateShape pc).points.getD idx
          ⟨0, 0, 0, none, none⟩))).z =
      (rotatePoint rotation (generateShape pc).centroid
        (vpos ((generateShape pc).points.getD idx
          ⟨0, 0, 0, none, none⟩))).z - (generateShape pc).centroid.z from rfl]
    rw [hc, sub_zero]
  · unfold sortedByDepth
    refine List.Pairwise.imp (fun h => of_decide_eq_true h)
      (List.sorted_mergeSort ?_ ?_ _)
    · intro a b c hab hbc
      simp only [decide_eq_true_eq] at hab hbc ⊢
      exact le_trans hab hbc
    · intro a b
      simp only [Bool.or_eq_true, decide_eq_true_eq]
      exact le_total _ _
  · unfold render
    rw [if_neg (by simpa [List.length_eq_zero] using hne)]

/-- Witness for C9 at the profile `[(1, 1)]` with identity view state:
the fill pass of the frame is sorted ascending by the assigned face
depth. -/
theorem render_painter_witness :
    List.Pairwise (fun a b : Face × ℝ => a.2 ≤ b.2)
      (sortedByDepth ⟨0, 0, 0⟩ (generateShape [⟨1, 1⟩]).centroid
        (generateShape [⟨1, 1⟩]).points (generateShape [⟨1, 1⟩]).faces) :=
  (render_painter [⟨1, 1⟩] ⟨0, 0, 0⟩ 1 800 600 generateShape_single_ne).2.1
